import Mathlib

/-!
Verification of the shape- and type-inference rules for the ONNX reduction
operator families (`src/onnx/defs/reduction/defs.cc`).

The development shallowly embeds the two `TypeAndShapeInferenceFunction`
lambdas installed by `ReduceDocGenerator` and `ArgReduceDocGenerator`:
protobuf messages become plain inductive types, the `InferenceContext`
becomes explicit arguments (input type descriptor, pre-existing output type
descriptor, attribute values), and the mutation of the output descriptor
becomes the returned value.
-/

namespace OnnxReduction

/-- One axis of a tensor shape (`TensorShapeProto.Dimension`): either a
concrete `dim_value`, a symbolic `dim_param`, or unset/unknown. -/
inductive Dim where
  | value : Int → Dim
  | param : String → Dim
  | unset : Dim
deriving DecidableEq, Repr

/-- The `TensorTypeProto` message: an optional element-type enum value and an
optional shape (a shape that is present but empty is distinct from an absent
shape). -/
structure TensorTypeProto where
  elem_type : Option Int
  shape : Option (List Dim)
deriving DecidableEq, Repr

/-- The `value` oneof of a `TypeProto`: unset (`VALUE_NOT_SET`), a tensor
type (`kTensorType`), or some other type category.  Modelled from the spec:
the proto file is not under `src/`; the guard in `ArgReduceDocGenerator`
tests for exactly the first two cases, and the spec speaks of "an
incompatible pre-set type category", which `otherValue` stands for. -/
inductive TypeProtoValue where
  | valueNotSet : TypeProtoValue
  | tensorType : TensorTypeProto → TypeProtoValue
  | otherValue : TypeProtoValue
deriving DecidableEq, Repr

/-- The `TensorProto_DataType_INT64` enum value used at
`defs.cc:140-141`. -/
def TensorProto_DataType_INT64 : Int := 7

/-- Protobuf `mutable_tensor_type()` semantics on the `value` oneof: return
the held tensor type, or a fresh default one (clearing any other held
case). -/
def mutableTensorType : TypeProtoValue → TensorTypeProto
  | .tensorType t => t
  | _ => { elem_type := none, shape := none }

/-- The `tensor_type().elem_type()` read used on input 0 (default-instance
semantics: a non-tensor descriptor reads as an unset element type). -/
def elemTypeOf : TypeProtoValue → Option Int
  | .tensorType t => t.elem_type
  | _ => none

/-- The dims read `tensor_type().shape()` yields, with `[]` for an absent
shape (never hit behind the `hasNInputShapes` gate). -/
def dimsOf (t : TypeProtoValue) : List Dim :=
  (mutableTensorType t).shape.getD []

/-- The shape slot of a descriptor: `some dims` when a tensor type with a
shape is held, `none` otherwise ("output shape unset"). -/
def shapeOf : TypeProtoValue → Option (List Dim)
  | .tensorType t => t.shape
  | _ => none

/-- Rank of the shape held by a descriptor, when one is held. -/
def rankOf (t : TypeProtoValue) : Option Nat :=
  (shapeOf t).map List.length

/-- Modelled from the spec: the helper `hasNInputShapes(ctx, 1)` (declared
in `onnx/defs/schema.h`, not under `src/`), the predicate
"hasKnownInputShapes(n) gating the best-effort shortcut": input 0 carries a
tensor type whose shape is present. -/
def hasInputShape : TypeProtoValue → Bool
  | .tensorType t => t.shape.isSome
  | _ => false

/-- Modelled from the spec: the helper
`propagateElemTypeFromInputToOutput(ctx, 0, 0)` (not under `src/`): "output
element type = input element type, unconditionally (pass-through)", written
through `mutable_tensor_type()` on the output slot. -/
def propagateElemTypeFromInputToOutput (inT outT : TypeProtoValue) :
    TypeProtoValue :=
  .tensorType { mutableTensorType outT with elem_type := elemTypeOf inT }

/-- `mutable_tensor_type()->mutable_shape()` followed by a sequence of
`add_dim` calls: the new dims are appended to whatever dims the output
shape already held (an absent shape materializes as the empty one). -/
def addDims (t : TypeProtoValue) (ds : List Dim) : TypeProtoValue :=
  let tt := mutableTensorType t
  .tensorType { tt with shape := some ((tt.shape.getD []) ++ ds) }

/-- Attributes read by the reduce-family rule: `axes` (INTS, optional) and
`keepdims` (INT, default 1). -/
structure ReduceAttrs where
  axes : Option (List Int)
  keepdims : Option Int
deriving DecidableEq, Repr

/-- Attributes read by the arg-reduce-family rule: `axis` (INT, default 0)
and `keepdims` (INT, default 1). -/
structure ArgReduceAttrs where
  axis : Option Int
  keepdims : Option Int
deriving DecidableEq, Repr

/-- The `TypeAndShapeInferenceFunction` lambda installed by
`ReduceDocGenerator` (`defs.cc:38-76`), as a function from the input type
descriptor, the pre-existing output type descriptor and the attribute set
to the resulting output type descriptor. -/
def reduceInferenceFunction (inT outT : TypeProtoValue)
    (attrs : ReduceAttrs) : TypeProtoValue :=
  let outT := propagateElemTypeFromInputToOutput inT outT
  if ¬ hasInputShape inT then outT
  else
    let input_shape := dimsOf inT
    let input_ndim : Int := input_shape.length
    let keep_dims : Int := attrs.keepdims.getD 1
    let axes : List Int :=
      (attrs.axes.getD []).map (fun a => if a < 0 then a + input_ndim else a)
    let dims := input_shape.enum.flatMap (fun p =>
      if axes ≠ [] ∧ (p.1 : Int) ∉ axes then [p.2]
      else if keep_dims = 1 then [Dim.value 1] else [])
    addDims outT dims

/-- The element-type write of the arg-reduce rule (`defs.cc:136-142`): force
the output element type to `INT64`, but only when the output `value` oneof
is `kTensorType` or `VALUE_NOT_SET`. -/
def argReduceSetElemType (outT : TypeProtoValue) : TypeProtoValue :=
  match outT with
  | .tensorType t =>
      .tensorType { t with elem_type := some TensorProto_DataType_INT64 }
  | .valueNotSet =>
      .tensorType { elem_type := some TensorProto_DataType_INT64,
                    shape := none }
  | .otherValue => .otherValue

/-- The `TypeAndShapeInferenceFunction` lambda installed by
`ArgReduceDocGenerator` (`defs.cc:135-176`). -/
def argReduceInferenceFunction (inT outT : TypeProtoValue)
    (attrs : ArgReduceAttrs) : TypeProtoValue :=
  let outT := argReduceSetElemType outT
  if ¬ hasInputShape inT then outT
  else
    let input_shape := dimsOf inT
    let input_ndim : Int := input_shape.length
    let axis : Int :=
      match attrs.axis with
      | none => 0
      | some a => if a < 0 then a + input_ndim else a
    let keep_dims : Int := attrs.keepdims.getD 1
    let dims := input_shape.enum.flatMap (fun p =>
      if (p.1 : Int) ≠ axis then [p.2]
      else if keep_dims = 1 then [Dim.value 1] else [])
    addDims outT dims

/-- A fully known input tensor descriptor, the common test fixture. -/
def inTensor (e : Int) (ds : List Dim) : TypeProtoValue :=
  .tensorType { elem_type := some e, shape := some ds }

/-! Helper lemmas about the dimension-emission loops. -/

/-- A `flatMap` whose every branch emits exactly one dimension keeps the
length of the enumerated input. -/
lemma length_flatMap_of_singletons {α β : Type} (l : List α) (f : α → List β)
    (h : ∀ p ∈ l, (f p).length = 1) : (l.flatMap f).length = l.length := by
  induction l with
  | nil => rfl
  | cons a t ih =>
    rw [List.flatMap_cons, List.length_append, h a (List.mem_cons_self a t),
      ih (fun p hp => h p (List.mem_cons_of_mem a hp)), List.length_cons]
    omega

/-- Emit-or-drop loops are filters: keeping `[p.2]` on `P` and `[]`
otherwise is filtering by `P` and projecting. -/
lemma flatMap_ite_nil {α : Type} (l : List (Nat × α)) (P : Nat × α → Prop)
    [DecidablePred P] :
    (l.flatMap fun p => if P p then [p.2] else []) =
      (l.filter fun p => decide (P p)).map Prod.snd := by
  induction l with
  | nil => rfl
  | cons a t ih => by_cases h : P a <;> simp [h, ih]

/-- Emit-or-replace loops are maps: keeping `[p.2]` on `P` and `[x]`
otherwise is mapping each slot to its dim or to the replacement. -/
lemma flatMap_ite_singleton {α : Type} (l : List (Nat × α))
    (P : Nat × α → Prop) [DecidablePred P] (x : α) :
    (l.flatMap fun p => if P p then [p.2] else [x]) =
      l.map (fun p => if P p then p.2 else x) := by
  induction l with
  | nil => rfl
  | cons a t ih => by_cases h : P a <;> simp [h, ih]

/-- A loop whose body emits each dimension verbatim reproduces the input. -/
lemma flatMap_eq_map_snd {α : Type} (l : List (Nat × α))
    (f : Nat × α → List α) (h : ∀ p ∈ l, f p = [p.2]) :
    l.flatMap f = l.map Prod.snd := by
  induction l with
  | nil => rfl
  | cons a t ih =>
    rw [List.flatMap_cons, h a (List.mem_cons_self a t),
      ih (fun p hp => h p (List.mem_cons_of_mem a hp)), List.map_cons]
    rfl

/-- Counting enumerated pairs by a predicate on the index is counting over
`range`. -/
lemma countP_enum_fst {α : Type} (l : List α) (q : Nat → Bool) :
    l.enum.countP (fun p => q p.1) = (List.range l.length).countP q := by
  rw [← List.enum_map_fst l, List.countP_map]
  rfl

/-- Normalization is the identity on an axes list that is already
non-negative. -/
lemma map_norm_of_nonneg (axes : List Int) (n : Int)
    (h : ∀ a ∈ axes, 0 ≤ a) :
    axes.map (fun a => if a < 0 then a + n else a) = axes := by
  have h2 : ∀ a ∈ axes, (if a < 0 then a + n else a) = id a := by
    intro a ha
    have := h a ha
    simp only [id]
    omega
  rw [List.map_congr_left h2, List.map_id]

/-- Each index below `n` that is a member of a duplicate-free list of
in-range axes is counted exactly once: the count over `range n` is the
list's length. -/
lemma countP_range_mem (n : Nat) (axes : List Int) (hnd : axes.Nodup)
    (hax : ∀ a ∈ axes, 0 ≤ a ∧ a < (n : Int)) :
    (List.range n).countP (fun i : Nat => decide ((i : Int) ∈ axes)) =
      axes.length := by
  induction n generalizing axes with
  | zero =>
    cases axes with
    | nil => simp
    | cons a t =>
      rcases hax a (List.mem_cons_self a t) with ⟨h0, h1⟩
      omega
  | succ n ih =>
    rw [List.range_succ, List.countP_append]
    by_cases h : (n : Int) ∈ axes
    · have hcong : (List.range n).countP
            (fun i : Nat => decide ((i : Int) ∈ axes))
          = (List.range n).countP
              (fun i : Nat => decide ((i : Int) ∈ axes.erase (n : Int))) := by
        apply List.countP_congr
        intro i hi
        have hilt : i < n := List.mem_range.mp hi
        have hne : (i : Int) ≠ (n : Int) := by omega
        simp [List.mem_erase_of_ne hne]
      have hlen : (axes.erase ((n : Nat) : Int)).length = axes.length - 1 :=
        List.length_erase_of_mem h
      have hpos : 0 < axes.length := List.length_pos.mpr (List.ne_nil_of_mem h)
      have hax' : ∀ a ∈ axes.erase (n : Int), 0 ≤ a ∧ a < (n : Int) := by
        intro a ha
        have hmem := (hnd.mem_erase_iff).mp ha
        rcases hax a hmem.2 with ⟨h0, h1⟩
        have := hmem.1
        exact ⟨h0, by omega⟩
      have h1 : [n].countP (fun i : Nat => decide ((i : Int) ∈ axes)) = 1 := by
        simp [h]
      rw [hcong, ih (axes.erase (n : Int)) (hnd.erase _) hax', h1]
      omega
    · have hax' : ∀ a ∈ axes, 0 ≤ a ∧ a < (n : Int) := by
        intro a ha
        rcases hax a ha with ⟨h0, h1⟩
        have hne : a ≠ (n : Int) := fun heq => h (heq ▸ ha)
        exact ⟨h0, by omega⟩
      have h2 : [n].countP (fun i : Nat => decide ((i : Int) ∈ axes)) = 0 := by
        simp [h]
      rw [h2, ih axes hnd hax']
      omega

/-- A loop whose body never emits produces no dimensions. -/
lemma flatMap_eq_nil {α β : Type} (l : List α) (f : α → List β)
    (h : ∀ p ∈ l, f p = []) : l.flatMap f = [] := by
  induction l with
  | nil => rfl
  | cons a t ih =>
    rw [List.flatMap_cons, h a (List.mem_cons_self a t),
      ih (fun p hp => h p (List.mem_cons_of_mem a hp)), List.nil_append]

/-- Unfolding of the reduce rule on a known input shape, a present `axes`
attribute and a fresh output slot. -/
lemma reduce_known_shape_some (e : Int) (ds : List Dim) (axes0 : List Int)
    (kd : Option Int) :
    reduceInferenceFunction (inTensor e ds) .valueNotSet ⟨some axes0, kd⟩ =
      .tensorType { elem_type := some e,
                    shape := some (ds.enum.flatMap fun p =>
                      if (axes0.map fun a =>
                            if a < 0 then a + (ds.length : Int) else a) ≠ [] ∧
                          (p.1 : Int) ∉ (axes0.map fun a =>
                            if a < 0 then a + (ds.length : Int) else a)
                      then [p.2]
                      else if kd.getD 1 = 1 then [Dim.value 1] else []) } := by
  rfl

/-- Unfolding of the reduce rule on a known input shape, an absent `axes`
attribute and a fresh output slot. -/
lemma reduce_known_shape_none (e : Int) (ds : List Dim) (kd : Option Int) :
    reduceInferenceFunction (inTensor e ds) .valueNotSet ⟨none, kd⟩ =
      .tensorType { elem_type := some e,
                    shape := some (ds.enum.flatMap fun p =>
                      if ([] : List Int) ≠ [] ∧
                          (p.1 : Int) ∉ ([] : List Int)
                      then [p.2]
                      else if kd.getD 1 = 1 then [Dim.value 1] else []) } := by
  rfl

/-- Unfolding of the arg-reduce rule on a known input shape, a present
`axis` attribute and a fresh output slot. -/
lemma argreduce_known_shape_some (e : Int) (ds : List Dim) (a : Int)
    (kd : Option Int) :
    argReduceInferenceFunction (inTensor e ds) .valueNotSet ⟨some a, kd⟩ =
      .tensorType { elem_type := some TensorProto_DataType_INT64,
                    shape := some (ds.enum.flatMap fun p =>
                      if (p.1 : Int) ≠
                          (if a < 0 then a + (ds.length : Int) else a)
                      then [p.2]
                      else if kd.getD 1 = 1 then [Dim.value 1] else []) } := by
  rfl

/-- Rank of a freshly produced tensor descriptor. -/
lemma rankOf_mk (eo : Option Int) (L : List Dim) :
    rankOf (.tensorType { elem_type := eo, shape := some L }) =
      some L.length := rfl

/-- Counting the indices below `n` outside a duplicate-free in-range axes
list leaves `n` minus the list's length. -/
lemma countP_range_not_mem (n : Nat) (axes : List Int) (hnd : axes.Nodup)
    (hax : ∀ a ∈ axes, 0 ≤ a ∧ a < (n : Int)) :
    (List.range n).countP (fun i : Nat => decide ((i : Int) ∉ axes)) =
      n - axes.length := by
  have h1 := countP_range_mem n axes hnd hax
  have h2 : (List.range n).length =
      (List.range n).countP (fun i : Nat => decide ((i : Int) ∈ axes)) +
        (List.range n).countP (fun i : Nat => decide ((i : Int) ∉ axes)) := by
    rw [List.length_eq_countP_add_countP
      (fun i : Nat => decide ((i : Int) ∈ axes))]
    congr 1
    apply List.countP_congr
    intro a _
    simp
  rw [List.length_range] at h2
  omega

/-- With `keepdims = 1` every loop iteration of the reduce rule emits
exactly one dimension. -/
lemma length_reduce_dims_keep (ds : List Dim) (axes : List Int) :
    (ds.enum.flatMap fun p =>
        if axes ≠ [] ∧ (p.1 : Int) ∉ axes then [p.2]
        else if (1 : Int) = 1 then [Dim.value 1] else []).length =
      ds.length := by
  have hsing : ∀ p ∈ ds.enum, ((fun p : Nat × Dim =>
      if axes ≠ [] ∧ (p.1 : Int) ∉ axes then [p.2]
      else if (1 : Int) = 1 then [Dim.value 1] else []) p).length = 1 := by
    intro p _
    by_cases hc : axes ≠ [] ∧ (p.1 : Int) ∉ axes <;> simp [hc]
  rw [length_flatMap_of_singletons ds.enum _ hsing, List.enum_length]

/-- With `keepdims = 0` and a non-empty duplicate-free in-range axes list
the reduce rule emits one dimension per non-member index. -/
lemma length_reduce_dims_drop (ds : List Dim) (axes : List Int)
    (hne : axes ≠ []) (hnd : axes.Nodup)
    (hax : ∀ a ∈ axes, 0 ≤ a ∧ a < (ds.length : Int)) :
    (ds.enum.flatMap fun p =>
        if axes ≠ [] ∧ (p.1 : Int) ∉ axes then [p.2]
        else if (0 : Int) = 1 then [Dim.value 1] else []).length =
      ds.length - axes.length := by
  have hfun : (fun p : Nat × Dim =>
      if axes ≠ [] ∧ (p.1 : Int) ∉ axes then [p.2]
      else if (0 : Int) = 1 then [Dim.value 1] else [])
      = fun p : Nat × Dim =>
        if (p.1 : Int) ∉ axes then [p.2] else [] := by
    funext p
    by_cases hc : (p.1 : Int) ∉ axes <;> simp [hc, hne]
  rw [hfun, flatMap_ite_nil ds.enum (fun p => (p.1 : Int) ∉ axes),
    List.length_map, ← List.countP_eq_length_filter,
    countP_enum_fst ds (fun i : Nat => decide ((i : Int) ∉ axes)),
    countP_range_not_mem ds.length axes hnd hax]

/-- With an empty axes vector and `keepdims = 1` the reduce rule emits a
size-1 dimension per input axis. -/
lemma length_reduce_dims_all_keep (ds : List Dim) :
    (ds.enum.flatMap fun p =>
        if ([] : List Int) ≠ [] ∧ (p.1 : Int) ∉ ([] : List Int) then [p.2]
        else if (1 : Int) = 1 then [Dim.value 1] else []).length =
      ds.length := by
  have hsing : ∀ p ∈ ds.enum, ((fun p : Nat × Dim =>
      if ([] : List Int) ≠ [] ∧ (p.1 : Int) ∉ ([] : List Int) then [p.2]
      else if (1 : Int) = 1 then [Dim.value 1] else []) p).length = 1 := by
    intro p _
    simp
  rw [length_flatMap_of_singletons ds.enum _ hsing, List.enum_length]

/-- With an empty axes vector and `keepdims = 0` the reduce rule emits no
dimension at all. -/
lemma reduce_dims_all_drop (ds : List Dim) :
    (ds.enum.flatMap fun p =>
        if ([] : List Int) ≠ [] ∧ (p.1 : Int) ∉ ([] : List Int) then [p.2]
        else if (0 : Int) = 1 then [Dim.value 1] else []) = [] := by
  apply flatMap_eq_nil
  intro p _
  simp

/-- With `keepdims = 1` every loop iteration of the arg-reduce rule emits
exactly one dimension. -/
lemma length_argreduce_dims_keep (ds : List Dim) (axis : Int) :
    (ds.enum.flatMap fun p =>
        if (p.1 : Int) ≠ axis then [p.2]
        else if (1 : Int) = 1 then [Dim.value 1] else []).length =
      ds.length := by
  have hsing : ∀ p ∈ ds.enum, ((fun p : Nat × Dim =>
      if (p.1 : Int) ≠ axis then [p.2]
      else if (1 : Int) = 1 then [Dim.value 1] else []) p).length = 1 := by
    intro p _
    by_cases hc : (p.1 : Int) ≠ axis <;> simp [hc]
  rw [length_flatMap_of_singletons ds.enum _ hsing, List.enum_length]

/-- With `keepdims = 0` and an in-range axis, the arg-reduce rule emits
one dimension per non-matching index. -/
lemma length_argreduce_dims_drop (ds : List Dim) (axis : Int)
    (h0 : 0 ≤ axis) (h1 : axis < (ds.length : Int)) :
    (ds.enum.flatMap fun p =>
        if (p.1 : Int) ≠ axis then [p.2]
        else if (0 : Int) = 1 then [Dim.value 1] else []).length =
      ds.length - 1 := by
  have hfun : (fun p : Nat × Dim =>
      if (p.1 : Int) ≠ axis then [p.2]
      else if (0 : Int) = 1 then [Dim.value 1] else [])
      = fun p : Nat × Dim =>
        if (p.1 : Int) ∉ [axis] then [p.2] else [] := by
    funext p
    by_cases hc : (p.1 : Int) = axis <;> simp [hc]
  have hax : ∀ a ∈ [axis], 0 ≤ a ∧ a < (ds.length : Int) := by
    intro a ha
    rw [List.mem_singleton] at ha
    subst ha
    exact ⟨h0, h1⟩
  rw [hfun, flatMap_ite_nil ds.enum (fun p => (p.1 : Int) ∉ [axis]),
    List.length_map, ← List.countP_eq_length_filter,
    countP_enum_fst ds (fun i : Nat => decide ((i : Int) ∉ [axis])),
    countP_range_not_mem ds.length [axis] (List.nodup_singleton axis) hax,
    List.length_singleton]

/-! Theorems settling the claims. -/

/-- C8: on the rank-3 input shape `[2,3,4]`, the reduce-family rule with
the `axes` attribute omitted and `keepdims = 0` produces the empty output
shape, of rank 0. -/
theorem reduce_all_axes_keepdims0_example :
    shapeOf (reduceInferenceFunction
      (inTensor 1 [Dim.value 2, Dim.value 3, Dim.value 4])
      .valueNotSet ⟨none, some 0⟩) = some [] ∧
    rankOf (reduceInferenceFunction
      (inTensor 1 [Dim.value 2, Dim.value 3, Dim.value 4])
      .valueNotSet ⟨none, some 0⟩) = some 0 := by
  constructor <;> decide

/-- C5: on every invocation of the reduce-family rule, the output element
type equals the input element type, whatever the pre-existing output
descriptor, the attributes, and the availability of the input shape. -/
theorem reduce_elem_type_passthrough (inT outT : TypeProtoValue)
    (ra : ReduceAttrs) :
    elemTypeOf (reduceInferenceFunction inT outT ra) = elemTypeOf inT := by
  unfold reduceInferenceFunction
  by_cases h : hasInputShape inT <;>
    simp [h, addDims, propagateElemTypeFromInputToOutput, mutableTensorType,
      elemTypeOf]

/-- C3: when input 0 carries no shape, both rules return right after the
element-type step: the reduce rule has propagated the input element type,
the arg-reduce rule has forced `INT64`, and in both cases the output shape
slot is still unset. -/
theorem unknown_shape_best_effort (inT : TypeProtoValue) (ra : ReduceAttrs)
    (aa : ArgReduceAttrs) (h : hasInputShape inT = false) :
    reduceInferenceFunction inT .valueNotSet ra =
      .tensorType { elem_type := elemTypeOf inT, shape := none } ∧
    shapeOf (reduceInferenceFunction inT .valueNotSet ra) = none ∧
    argReduceInferenceFunction inT .valueNotSet aa =
      .tensorType { elem_type := some TensorProto_DataType_INT64,
                    shape := none } ∧
    shapeOf (argReduceInferenceFunction inT .valueNotSet aa) = none := by
  unfold reduceInferenceFunction argReduceInferenceFunction
  simp [h, propagateElemTypeFromInputToOutput, argReduceSetElemType,
    mutableTensorType, shapeOf]

/-- Witness for C3 at a concrete shapeless input and concrete attributes. -/
theorem unknown_shape_best_effort_witness :
    hasInputShape .valueNotSet = false ∧
    (reduceInferenceFunction .valueNotSet .valueNotSet ⟨some [0], some 0⟩ =
      .tensorType { elem_type := elemTypeOf .valueNotSet, shape := none } ∧
    shapeOf (reduceInferenceFunction .valueNotSet .valueNotSet
      ⟨some [0], some 0⟩) = none ∧
    argReduceInferenceFunction .valueNotSet .valueNotSet ⟨some 0, some 0⟩ =
      .tensorType { elem_type := some TensorProto_DataType_INT64,
                    shape := none } ∧
    shapeOf (argReduceInferenceFunction .valueNotSet .valueNotSet
      ⟨some 0, some 0⟩) = none) :=
  ⟨by decide,
    unknown_shape_best_effort .valueNotSet ⟨some [0], some 0⟩
      ⟨some 0, some 0⟩ (by decide)⟩

/-- C4: the arg-reduce rule forces the output element type to `INT64`
whenever the output `value` oneof is a plain tensor type or unset —
overwriting any pre-existing element type — and its element-type step
leaves any other type category untouched. -/
theorem argreduce_elem_type_guard (tt : TensorTypeProto)
    (inT : TypeProtoValue) (aa : ArgReduceAttrs) :
    argReduceSetElemType (.tensorType tt) =
      .tensorType { tt with elem_type := some TensorProto_DataType_INT64 } ∧
    argReduceSetElemType .valueNotSet =
      .tensorType { elem_type := some TensorProto_DataType_INT64,
                    shape := none } ∧
    argReduceSetElemType .otherValue = .otherValue ∧
    elemTypeOf (argReduceInferenceFunction inT (.tensorType tt) aa) =
      some TensorProto_DataType_INT64 ∧
    elemTypeOf (argReduceInferenceFunction inT .valueNotSet aa) =
      some TensorProto_DataType_INT64 := by
  refine ⟨rfl, rfl, rfl, ?_, ?_⟩ <;>
  · unfold argReduceInferenceFunction
    by_cases h : hasInputShape inT <;>
      simp [h, addDims, argReduceSetElemType, mutableTensorType, elemTypeOf]

/-- C9: in both rules, any `keepdims` value other than exactly 1 behaves
like 0: the selected axis is dropped, not replaced by a size-1 dim. -/
theorem keepdims_non_one_prunes (inT outT : TypeProtoValue)
    (axes : Option (List Int)) (axis : Option Int) (kd : Int)
    (h : kd ≠ 1) :
    reduceInferenceFunction inT outT ⟨axes, some kd⟩ =
      reduceInferenceFunction inT outT ⟨axes, some 0⟩ ∧
    argReduceInferenceFunction inT outT ⟨axis, some kd⟩ =
      argReduceInferenceFunction inT outT ⟨axis, some 0⟩ := by
  unfold reduceInferenceFunction argReduceInferenceFunction
  by_cases hs : hasInputShape inT <;> simp [hs, h]

/-- Witness for C9 at `keepdims = 2` on the shape `[2,3]`. -/
theorem keepdims_non_one_prunes_witness :
    (2 : Int) ≠ 1 ∧
    (reduceInferenceFunction (inTensor 1 [Dim.value 2, Dim.value 3])
        .valueNotSet ⟨some [0], some 2⟩ =
      reduceInferenceFunction (inTensor 1 [Dim.value 2, Dim.value 3])
        .valueNotSet ⟨some [0], some 0⟩ ∧
    argReduceInferenceFunction (inTensor 1 [Dim.value 2, Dim.value 3])
        .valueNotSet ⟨some 0, some 2⟩ =
      argReduceInferenceFunction (inTensor 1 [Dim.value 2, Dim.value 3])
        .valueNotSet ⟨some 0, some 0⟩) :=
  ⟨by decide,
    keepdims_non_one_prunes (inTensor 1 [Dim.value 2, Dim.value 3])
      .valueNotSet (some [0]) (some 0) 2 (by decide)⟩

/-- C1 (amended): for every input shape of rank `r`, the reduce rule
produces rank `r` when `keepdims = 1`; when `keepdims = 0` it produces
rank `r − |axes|` for a non-empty duplicate-free normalized axes set with
members in `[0, r)`, and rank `0` both when the `axes` attribute is absent
and when it is present with an empty list (the code selects all axes in
both cases). -/
theorem reduce_output_rank (e : Int) (ds : List Dim) (axes : List Int)
    (hne : axes ≠ []) (hnd : axes.Nodup)
    (hax : ∀ a ∈ axes, 0 ≤ a ∧ a < (ds.length : Int)) :
    rankOf (reduceInferenceFunction (inTensor e ds) .valueNotSet
        ⟨some axes, some 1⟩) = some ds.length ∧
    rankOf (reduceInferenceFunction (inTensor e ds) .valueNotSet
        ⟨some axes, some 0⟩) = some (ds.length - axes.length) ∧
    rankOf (reduceInferenceFunction (inTensor e ds) .valueNotSet
        ⟨none, some 1⟩) = some ds.length ∧
    rankOf (reduceInferenceFunction (inTensor e ds) .valueNotSet
        ⟨none, some 0⟩) = some 0 ∧
    rankOf (reduceInferenceFunction (inTensor e ds) .valueNotSet
        ⟨some [], some 1⟩) = some ds.length ∧
    rankOf (reduceInferenceFunction (inTensor e ds) .valueNotSet
        ⟨some [], some 0⟩) = some 0 := by
  have hid := map_norm_of_nonneg axes (ds.length : Int)
    (fun a ha => (hax a ha).1)
  refine ⟨?_, ?_, ?_, ?_, ?_, ?_⟩
  · rw [reduce_known_shape_some, rankOf_mk]
    simp only [Option.getD_some, hid]
    exact congrArg some (length_reduce_dims_keep ds axes)
  · rw [reduce_known_shape_some, rankOf_mk]
    simp only [Option.getD_some, hid]
    exact congrArg some (length_reduce_dims_drop ds axes hne hnd hax)
  · rw [reduce_known_shape_none, rankOf_mk]
    simp only [Option.getD_some]
    exact congrArg some (length_reduce_dims_all_keep ds)
  · rw [reduce_known_shape_none, rankOf_mk]
    simp only [Option.getD_some, reduce_dims_all_drop]
    rfl
  · rw [reduce_known_shape_some, rankOf_mk]
    simp only [Option.getD_some, List.map_nil]
    exact congrArg some (length_reduce_dims_all_keep ds)
  · rw [reduce_known_shape_some, rankOf_mk]
    simp only [Option.getD_some, List.map_nil, reduce_dims_all_drop]
    rfl

/-- C1 counterexample: on the rank-1 input `[2]`, the `axes` attribute
present with an empty list (a normalized axes set whose members vacuously
lie in `[0, 1)`) and `keepdims = 0`, the rule yields rank 0, not the rank
`1 − |∅| = 1` the claim predicts for a present attribute. -/
theorem reduce_output_rank_counterexample :
    rankOf (reduceInferenceFunction (inTensor 1 [Dim.value 2]) .valueNotSet
        ⟨some [], some 0⟩) = some 0 ∧
    rankOf (reduceInferenceFunction (inTensor 1 [Dim.value 2]) .valueNotSet
        ⟨some [], some 0⟩) ≠ some 1 := by
  constructor <;> decide

/-- Witness for C1 on the shape `[2,3,4]` with axes `[1]`. -/
theorem reduce_output_rank_witness :
    ([1] : List Int) ≠ [] ∧ ([1] : List Int).Nodup ∧
    (∀ a ∈ ([1] : List Int), 0 ≤ a ∧
      a < (([Dim.value 2, Dim.value 3, Dim.value 4].length : Nat) : Int)) ∧
    (rankOf (reduceInferenceFunction
        (inTensor 1 [Dim.value 2, Dim.value 3, Dim.value 4]) .valueNotSet
        ⟨some [1], some 1⟩) = some 3 ∧
    rankOf (reduceInferenceFunction
        (inTensor 1 [Dim.value 2, Dim.value 3, Dim.value 4]) .valueNotSet
        ⟨some [1], some 0⟩) = some 2 ∧
    rankOf (reduceInferenceFunction
        (inTensor 1 [Dim.value 2, Dim.value 3, Dim.value 4]) .valueNotSet
        ⟨none, some 1⟩) = some 3 ∧
    rankOf (reduceInferenceFunction
        (inTensor 1 [Dim.value 2, Dim.value 3, Dim.value 4]) .valueNotSet
        ⟨none, some 0⟩) = some 0 ∧
    rankOf (reduceInferenceFunction
        (inTensor 1 [Dim.value 2, Dim.value 3, Dim.value 4]) .valueNotSet
        ⟨some [], some 1⟩) = some 3 ∧
    rankOf (reduceInferenceFunction
        (inTensor 1 [Dim.value 2, Dim.value 3, Dim.value 4]) .valueNotSet
        ⟨some [], some 0⟩) = some 0) :=
  ⟨by decide, by decide, by decide,
    reduce_output_rank 1 [Dim.value 2, Dim.value 3, Dim.value 4] [1]
      (by decide) (by decide) (by decide)⟩

/-- C2: for every input shape of rank `r ≥ 1` and a normalized axis in
`[0, r)`, the arg-reduce rule produces rank `r` when `keepdims = 1` and
rank `r − 1` when `keepdims = 0`. -/
theorem argreduce_output_rank (e : Int) (ds : List Dim) (axis : Int)
    (h0 : 0 ≤ axis) (h1 : axis < (ds.length : Int)) :
    rankOf (argReduceInferenceFunction (inTensor e ds) .valueNotSet
        ⟨some axis, some 1⟩) = some ds.length ∧
    rankOf (argReduceInferenceFunction (inTensor e ds) .valueNotSet
        ⟨some axis, some 0⟩) = some (ds.length - 1) := by
  have hnorm : (if axis < 0 then axis + (ds.length : Int) else axis) =
      axis := if_neg (by omega)
  constructor
  · rw [argreduce_known_shape_some, rankOf_mk]
    simp only [Option.getD_some, hnorm]
    exact congrArg some (length_argreduce_dims_keep ds axis)
  · rw [argreduce_known_shape_some, rankOf_mk]
    simp only [Option.getD_some, hnorm]
    exact congrArg some (length_argreduce_dims_drop ds axis h0 h1)

/-- Witness for C2 on the shape `[5,6]` with axis 1. -/
theorem argreduce_output_rank_witness :
    (0 : Int) ≤ 1 ∧ (1 : Int) < (([Dim.value 5, Dim.value 6].length : Nat) : Int) ∧
    (rankOf (argReduceInferenceFunction (inTensor 1 [Dim.value 5, Dim.value 6])
        .valueNotSet ⟨some 1, some 1⟩) = some 2 ∧
    rankOf (argReduceInferenceFunction (inTensor 1 [Dim.value 5, Dim.value 6])
        .valueNotSet ⟨some 1, some 0⟩) = some 1) :=
  ⟨by decide, by decide,
    argreduce_output_rank 1 [Dim.value 5, Dim.value 6] 1
      (by decide) (by decide)⟩

/-- C6: in both rule families, a negative axis value `a` with
`−r ≤ a < 0` produces exactly the same output descriptor (shape and
element type) as the positive value `a + r`, in any position of the axes
list for the reduce family. -/
theorem negative_axis_normalization (e : Int) (ds : List Dim)
    (pre post : List Int) (a : Int) (kd : Option Int)
    (h1 : -(ds.length : Int) ≤ a) (h2 : a < 0) :
    reduceInferenceFunction (inTensor e ds) .valueNotSet
        ⟨some (pre ++ a :: post), kd⟩ =
      reduceInferenceFunction (inTensor e ds) .valueNotSet
        ⟨some (pre ++ (a + (ds.length : Int)) :: post), kd⟩ ∧
    argReduceInferenceFunction (inTensor e ds) .valueNotSet ⟨some a, kd⟩ =
      argReduceInferenceFunction (inTensor e ds) .valueNotSet
        ⟨some (a + (ds.length : Int)), kd⟩ := by
  have e1 : (if a < 0 then a + (ds.length : Int) else a) =
      a + (ds.length : Int) := if_pos h2
  have e2 : (if a + (ds.length : Int) < 0
      then a + (ds.length : Int) + (ds.length : Int)
      else a + (ds.length : Int)) = a + (ds.length : Int) :=
    if_neg (by omega)
  constructor
  · rw [reduce_known_shape_some, reduce_known_shape_some]
    simp only [List.map_append, List.map_cons, e1, e2]
  · rw [argreduce_known_shape_some, argreduce_known_shape_some]
    simp only [e1, e2]

/-- Witness for C6 on the shape `[5,6]` with axis −1 against axis 1. -/
theorem negative_axis_normalization_witness :
    -(([Dim.value 5, Dim.value 6].length : Nat) : Int) ≤ -1 ∧
    (-1 : Int) < 0 ∧
    (reduceInferenceFunction (inTensor 1 [Dim.value 5, Dim.value 6])
        .valueNotSet ⟨some ([] ++ (-1) :: []), some 0⟩ =
      reduceInferenceFunction (inTensor 1 [Dim.value 5, Dim.value 6])
        .valueNotSet
        ⟨some ([] ++ (-1 + (([Dim.value 5, Dim.value 6].length : Nat) : Int))
          :: []), some 0⟩ ∧
    argReduceInferenceFunction (inTensor 1 [Dim.value 5, Dim.value 6])
        .valueNotSet ⟨some (-1), some 0⟩ =
      argReduceInferenceFunction (inTensor 1 [Dim.value 5, Dim.value 6])
        .valueNotSet
        ⟨some (-1 + (([Dim.value 5, Dim.value 6].length : Nat) : Int)),
          some 0⟩) :=
  ⟨by decide, by decide,
    negative_axis_normalization 1 [Dim.value 5, Dim.value 6] [] [] (-1)
      (some 0) (by decide) (by decide)⟩

/-- C7: with a non-empty normalized axes set, the reduce rule copies every
non-member input dimension verbatim, in increasing axis order, to the next
output slot: with `keepdims = 1` the output is the input with the member
axes replaced by size-1 dims, and otherwise it is exactly the ordered
projection of the non-member dims. -/
theorem reduce_copies_unselected_dims (e : Int) (ds : List Dim)
    (axes : List Int) (kd : Int) (hne : axes ≠ [])
    (hpos : ∀ a ∈ axes, 0 ≤ a) :
    shapeOf (reduceInferenceFunction (inTensor e ds) .valueNotSet
        ⟨some axes, some kd⟩) =
      some (if kd = 1
        then ds.enum.map fun p =>
          if (p.1 : Int) ∉ axes then p.2 else Dim.value 1
        else (ds.enum.filter fun p =>
          decide ((p.1 : Int) ∉ axes)).map Prod.snd) := by
  have hid := map_norm_of_nonneg axes (ds.length : Int) hpos
  rw [reduce_known_shape_some]
  simp only [shapeOf, Option.getD_some, hid]
  refine congrArg some ?_
  by_cases hkd : kd = 1
  · rw [if_pos hkd]
    have hfun : (fun p : Nat × Dim =>
        if axes ≠ [] ∧ (p.1 : Int) ∉ axes then [p.2] else [Dim.value 1])
        = fun p : Nat × Dim =>
          if (p.1 : Int) ∉ axes then [p.2] else [Dim.value 1] := by
      funext p
      by_cases hc : (p.1 : Int) ∉ axes <;> simp [hc, hne]
    rw [hfun,
      flatMap_ite_singleton ds.enum (fun p => (p.1 : Int) ∉ axes),
      if_pos hkd]
  · rw [if_neg hkd]
    have hfun : (fun p : Nat × Dim =>
        if axes ≠ [] ∧ (p.1 : Int) ∉ axes then [p.2] else [])
        = fun p : Nat × Dim =>
          if (p.1 : Int) ∉ axes then [p.2] else [] := by
      funext p
      by_cases hc : (p.1 : Int) ∉ axes <;> simp [hc, hne]
    rw [hfun,
      flatMap_ite_nil ds.enum (fun p => (p.1 : Int) ∉ axes),
      if_neg hkd]

/-- Witness for C7 on the shape `[2,3,4]` with axes `[1]`. -/
theorem reduce_copies_unselected_dims_witness :
    ([1] : List Int) ≠ [] ∧ (∀ a ∈ ([1] : List Int), 0 ≤ a) ∧
    shapeOf (reduceInferenceFunction
        (inTensor 1 [Dim.value 2, Dim.value 3, Dim.value 4]) .valueNotSet
        ⟨some [1], some 1⟩) =
      some (if (1 : Int) = 1
        then [Dim.value 2, Dim.value 3, Dim.value 4].enum.map fun p =>
          if (p.1 : Int) ∉ ([1] : List Int) then p.2 else Dim.value 1
        else ([Dim.value 2, Dim.value 3, Dim.value 4].enum.filter fun p =>
          decide ((p.1 : Int) ∉ ([1] : List Int))).map Prod.snd) :=
  ⟨by decide, by decide,
    reduce_copies_unselected_dims 1 [Dim.value 2, Dim.value 3, Dim.value 4]
      [1] 1 (by decide) (by decide)⟩

/-- C10: when the normalized arg-reduce axis lies outside `[0, rank)`, no
iteration matches it, so every input dimension is copied verbatim: the
output shape equals the input shape (rank preserved) for every `keepdims`
value, and no error is raised. -/
theorem argreduce_out_of_range_axis (e : Int) (ds : List Dim) (a : Int)
    (kd : Option Int)
    (h : (if a < 0 then a + (ds.length : Int) else a) < 0 ∨
        (ds.length : Int) ≤ (if a < 0 then a + (ds.length : Int) else a)) :
    argReduceInferenceFunction (inTensor e ds) .valueNotSet
        ⟨some a, kd⟩ =
      .tensorType { elem_type := some TensorProto_DataType_INT64,
                    shape := some ds } := by
  rw [argreduce_known_shape_some]
  have hsnd : ∀ p ∈ ds.enum, ((fun p : Nat × Dim =>
      if (p.1 : Int) ≠ (if a < 0 then a + (ds.length : Int) else a)
      then [p.2]
      else if kd.getD 1 = 1 then [Dim.value 1] else []) p) = [p.2] := by
    intro p hp
    have hlt : p.1 < ds.length := List.fst_lt_of_mem_enum hp
    have hne : (p.1 : Int) ≠
        (if a < 0 then a + (ds.length : Int) else a) := by
      rcases h with h | h
      · intro heq
        rw [← heq] at h
        omega
      · intro heq
        rw [← heq] at h
        omega
    simp only [if_pos hne]
  rw [flatMap_eq_map_snd ds.enum _ hsnd, List.enum_map_snd]

/-- Witness for C10: axis 5 on the rank-2 shape `[2,3]`. -/
theorem argreduce_out_of_range_axis_witness :
    ((if (5 : Int) < 0
        then 5 + (([Dim.value 2, Dim.value 3].length : Nat) : Int)
        else 5) < 0 ∨
      (([Dim.value 2, Dim.value 3].length : Nat) : Int) ≤
        (if (5 : Int) < 0
          then 5 + (([Dim.value 2, Dim.value 3].length : Nat) : Int)
          else 5)) ∧
    argReduceInferenceFunction (inTensor 1 [Dim.value 2, Dim.value 3])
        .valueNotSet ⟨some 5, some 0⟩ =
      .tensorType { elem_type := some TensorProto_DataType_INT64,
                    shape := some [Dim.value 2, Dim.value 3] } :=
  ⟨by decide,
    argreduce_out_of_range_axis 1 [Dim.value 2, Dim.value 3] 5 (some 0)
      (by decide)⟩

end OnnxReduction
